import Mathlib

/-!
Verification of the structured-response extraction pipeline of this
repository: the JSON extraction helpers in `5.chat_demo.py`
(`extract_json`, `require_terminate`, the phase retry loop) and in
`7.stock_analysis.py` (`_strip_fences` and the JSON-parse fallback of
`run_workflow`), together with a schema validator modelled from the
specification (the validation itself is performed by the external
`pydantic` library; only the schema declarations live in this repository).

Strings are embedded as `List Char`.  Python floats appearing in JSON
numbers are modelled as exact rationals (`ℚ`); the whitespace classes of
Python's `str.strip` and the regex `\s` are modelled by their ASCII
members, which covers every input handled by these scripts.
-/

/-- The JSON whitespace characters accepted between tokens by Python's
`json.loads` (space, tab, newline, carriage return). -/
def isJsonWs (c : Char) : Bool :=
  c = ' ' || c = '\t' || c = '\n' || c = '\r'

/-- Skip leading JSON whitespace. -/
def skipWs (l : List Char) : List Char :=
  l.dropWhile isJsonWs

/-- ASCII members of the whitespace class used by Python's `str.strip()`
and by the regex class `\s`. -/
def isPyWs (c : Char) : Bool :=
  c = ' ' || c = '\t' || c = '\n' || c = '\r' || c = '\x0b' || c = '\x0c'

/-- Python `s.strip()`: remove leading and trailing whitespace. -/
def pyStrip (l : List Char) : List Char :=
  ((l.dropWhile isPyWs).reverse.dropWhile isPyWs).reverse

/-- ASCII alphanumeric test, the character class `[a-zA-Z0-9]`. -/
def isAlnumAscii (c : Char) : Bool :=
  c.isAlpha || c.isDigit

/-- The backquote character used by Markdown code fences. -/
def backquote : Char := Char.ofNat 96

/-- Values produced by Python's `json.loads`.  A number literal is kept
exactly as the scientific pair mantissa · 10 ^ exp10 read off the text
(Python's int/float distinction is not needed by any claim); `nan` and
`inf` model the non-standard literals `NaN`, `Infinity` and `-Infinity`
accepted by `json.loads`.  Object members keep source order and
duplicates. -/
inductive JsonValue where
  | null
  | bool (b : Bool)
  | num (mantissa : Int) (exp10 : Int)
  | str (s : List Char)
  | arr (elems : List JsonValue)
  | obj (members : List (List Char × JsonValue))
  | nan
  | inf (neg : Bool)

/-- Numeric value of a list of decimal digit characters. -/
def digitsVal (ds : List Char) : Nat :=
  ds.foldl (fun a c => a * 10 + (c.toNat - 48)) 0

/-- Fractional part of a JSON number: `(\.\d+)?`.  Returns the digits of
the fraction (empty when absent) and the remaining input. -/
def parseFracPart : List Char → List Char × List Char
  | '.' :: r =>
    match r.takeWhile Char.isDigit with
    | [] => ([], '.' :: r)
    | ds => (ds, r.drop ds.length)
  | l => ([], l)

/-- Read the digits of an exponent; when no digit follows, the exponent
marker is not consumed (the regex group `([eE][-+]?\d+)?` matches as a
whole or not at all). -/
def parseExpDigits (neg : Bool) (r : List Char) (orig : List Char) : Int × List Char :=
  match r.takeWhile Char.isDigit with
  | [] => (0, orig)
  | ds => (if neg then -(digitsVal ds : Int) else (digitsVal ds : Int), r.drop ds.length)

/-- Exponent part of a JSON number: `([eE][-+]?\d+)?`. -/
def parseExpPart : List Char → Int × List Char
  | [] => (0, [])
  | c :: r =>
    if c = 'e' || c = 'E' then
      match r with
      | '+' :: r2 => parseExpDigits false r2 (c :: r)
      | '-' :: r2 => parseExpDigits true r2 (c :: r)
      | r2 => parseExpDigits false r2 (c :: r)
    else (0, c :: r)

/-- Assemble the scientific representation (mantissa, exp10) of a number
whose optional sign and integer part have been read; consumes the
fraction and exponent.  The digits `ip.fr e E` denote
(± (ip·10^k + fr)) · 10 ^ (E − k) with k the number of fraction digits. -/
def parseNumberCore (neg : Bool) (ip : Nat) (rest : List Char) : (Int × Int) × List Char :=
  let fr := parseFracPart rest
  let ex := parseExpPart fr.2
  let k := fr.1.length
  let mag : Int := ((ip * 10 ^ k + digitsVal fr.1 : ℕ) : Int)
  (((if neg then -mag else mag), ex.1 - (k : Int)), ex.2)

/-- JSON number grammar as matched by Python's `json` module:
`(-?(?:0|[1-9]\d*))(\.\d+)?([eE][-+]?\d+)?`. -/
def parseNumber (l : List Char) : Option ((Int × Int) × List Char) :=
  let p : Bool × List Char := match l with
    | '-' :: r => (true, r)
    | _ => (false, l)
  match p.2 with
  | '0' :: r => some (parseNumberCore p.1 0 r)
  | c :: r =>
    if c.isDigit then
      let ds := r.takeWhile Char.isDigit
      some (parseNumberCore p.1 (digitsVal (c :: ds)) (r.drop ds.length))
    else none
  | [] => none

/-- Value of a hexadecimal digit character. -/
def hexVal? (c : Char) : Option Nat :=
  if c.isDigit then some (c.toNat - 48)
  else if 'a' ≤ c ∧ c ≤ 'f' then some (c.toNat - 87)
  else if 'A' ≤ c ∧ c ≤ 'F' then some (c.toNat - 70)
  else none

/-- Body of a JSON string after the opening quote, in Python's strict
mode: standard escapes, `\uXXXX` code points, and a hard error on raw
control characters below 0x20.  (Surrogate-pair recombination is not
modelled; no input of these scripts contains astral-plane escapes.) -/
def parseStringBody : Nat → List Char → List Char → Option (List Char × List Char)
  | 0, _, _ => none
  | _ + 1, [], _ => none
  | fuel + 1, c :: r, acc =>
    if c = '"' then some (acc.reverse, r)
    else if c = '\\' then
      match r with
      | [] => none
      | e :: r2 =>
        if e = '"' then parseStringBody fuel r2 ('"' :: acc)
        else if e = '\\' then parseStringBody fuel r2 ('\\' :: acc)
        else if e = '/' then parseStringBody fuel r2 ('/' :: acc)
        else if e = 'b' then parseStringBody fuel r2 ('\x08' :: acc)
        else if e = 'f' then parseStringBody fuel r2 ('\x0c' :: acc)
        else if e = 'n' then parseStringBody fuel r2 ('\n' :: acc)
        else if e = 'r' then parseStringBody fuel r2 ('\r' :: acc)
        else if e = 't' then parseStringBody fuel r2 ('\t' :: acc)
        else if e = 'u' then
          match r2 with
          | h1 :: h2 :: h3 :: h4 :: r3 =>
            match hexVal? h1, hexVal? h2, hexVal? h3, hexVal? h4 with
            | some a, some b, some c2, some d =>
              parseStringBody fuel r3 (Char.ofNat (((a * 16 + b) * 16 + c2) * 16 + d) :: acc)
            | _, _, _, _ => none
          | _ => none
        else none
    else if c.toNat < 32 then none
    else parseStringBody fuel r (c :: acc)

/-- When `lit` is a leading block of `l`, the remainder of `l` after it. -/
def dropLit : List Char → List Char → Option (List Char)
  | [], l => some l
  | _ :: _, [] => none
  | p :: ps, c :: cs => if p = c then dropLit ps cs else none

mutual

/-- Recursive-descent JSON value parser mirroring Python's `json`
scanner: dispatch on the first character, with the literal constants,
the number pattern, and then `NaN`, `Infinity`, `-Infinity`. -/
def parseValue : Nat → List Char → Option (JsonValue × List Char)
  | 0, _ => none
  | fuel + 1, l =>
    match l with
    | [] => none
    | c :: r =>
      if c = '{' then
        match parseObjBody fuel (skipWs r) with
        | some (kvs, rest) => some (JsonValue.obj kvs, rest)
        | none => none
      else if c = '[' then
        match parseArrBody fuel (skipWs r) with
        | some (vs, rest) => some (JsonValue.arr vs, rest)
        | none => none
      else if c = '"' then
        match parseStringBody (fuel + 1) r [] with
        | some (s, rest) => some (JsonValue.str s, rest)
        | none => none
      else
        match dropLit ("true".toList) l with
        | some rest => some (JsonValue.bool true, rest)
        | none =>
          match dropLit ("false".toList) l with
          | some rest => some (JsonValue.bool false, rest)
          | none =>
            match dropLit ("null".toList) l with
            | some rest => some (JsonValue.null, rest)
            | none =>
              match parseNumber l with
              | some (q, rest) => some (JsonValue.num q.1 q.2, rest)
              | none =>
                match dropLit ("NaN".toList) l with
                | some rest => some (JsonValue.nan, rest)
                | none =>
                  match dropLit ("Infinity".toList) l with
                  | some rest => some (JsonValue.inf false, rest)
                  | none =>
                    match dropLit ("-Infinity".toList) l with
                    | some rest => some (JsonValue.inf true, rest)
                    | none => none

/-- Object body after `{` and whitespace: empty object or members. -/
def parseObjBody : Nat → List Char → Option (List (List Char × JsonValue) × List Char)
  | 0, _ => none
  | fuel + 1, l =>
    match l with
    | '}' :: r => some ([], r)
    | l' => parseMembers fuel l'

/-- One or more `"key": value` members separated by commas, ending at
`}`; keys must be double-quoted strings. -/
def parseMembers : Nat → List Char → Option (List (List Char × JsonValue) × List Char)
  | 0, _ => none
  | fuel + 1, l =>
    match l with
    | '"' :: r =>
      match parseStringBody (fuel + 1) r [] with
      | none => none
      | some (key, r1) =>
        match skipWs r1 with
        | ':' :: r2 =>
          match parseValue fuel (skipWs r2) with
          | none => none
          | some (v, r3) =>
            match skipWs r3 with
            | ',' :: r4 =>
              match parseMembers fuel (skipWs r4) with
              | some (kvs, rest) => some ((key, v) :: kvs, rest)
              | none => none
            | '}' :: r4 => some ([(key, v)], r4)
            | _ => none
        | _ => none
    | _ => none

/-- Array body after `[` and whitespace: empty array or elements. -/
def parseArrBody : Nat → List Char → Option (List JsonValue × List Char)
  | 0, _ => none
  | fuel + 1, l =>
    match l with
    | ']' :: r => some ([], r)
    | l' => parseElems fuel l'

/-- One or more array elements separated by commas, ending at `]`. -/
def parseElems : Nat → List Char → Option (List JsonValue × List Char)
  | 0, _ => none
  | fuel + 1, l =>
    match parseValue fuel l with
    | none => none
    | some (v, r) =>
      match skipWs r with
      | ',' :: r2 =>
        match parseElems fuel (skipWs r2) with
        | some (vs, rest) => some (v :: vs, rest)
        | none => none
      | ']' :: r2 => some ([v], r2)
      | _ => none

end

/-- Python's `json.loads`: skip leading whitespace, parse one value,
require only whitespace to remain (`Extra data` otherwise); any failure
is an exception in Python, `none` here.  The fuel `4 * length + 16`
dominates the recursion depth, which grows by at most a bounded number
of calls per consumed character. -/
def json_loads (l : List Char) : Option JsonValue :=
  match parseValue (4 * l.length + 16) (skipWs l) with
  | some (v, rest) => if skipWs rest = [] then some v else none
  | none => none

example : json_loads ("\x7b\"a\":1\x7d".toList) =
    some (JsonValue.obj [("a".toList, JsonValue.num 1 0)]) := by rfl

example : json_loads ("\x7b\"a\": [1.5, true, null], \"b\": \"x\"\x7d".toList) =
    some (JsonValue.obj
      [("a".toList, JsonValue.arr [JsonValue.num 15 (-1), JsonValue.bool true, JsonValue.null]),
       ("b".toList, JsonValue.str ("x".toList))]) := by rfl

example : json_loads ("\x7boops\x7d".toList) = none := by rfl

example : json_loads (" -2.5e2 ".toList) = some (JsonValue.num (-25) 1) := by rfl

example : json_loads ("01".toList) = none := by rfl

example : json_loads ("\x7b\"a\":1\x7d \x7b\"b\":2\x7d".toList) = none := by rfl

/-- Greedy tail of the pattern `.*\}` under `re.S`: succeeds iff the
input contains a `}`, consuming everything up to and including the last
`}` (the greedy `.*` backtracks from the end of the input). -/
def upToLastClose : List Char → Option (List Char)
  | [] => none
  | c :: cs =>
    match upToLastClose cs with
    | some t => some (c :: t)
    | none => if c = '}' then some [c] else none

/-- Attempt of the pattern `\{.*\}` (with `re.S`) at one position: the
position must hold `{` and some `}` must follow. -/
def matchBrace : List Char → Option (List Char)
  | [] => none
  | c :: cs =>
    if c = '{' then
      match upToLastClose cs with
      | some t => some (c :: t)
      | none => none
    else none

/-- `re.search` of the compiled `JSON_PATTERN = re.compile(r"\{.*\}", re.S)`
from `5.chat_demo.py`: try the pattern at each successive start
position, returning the first (leftmost) match. -/
def regexSearch : List Char → Option (List Char)
  | [] => none
  | c :: cs =>
    match matchBrace (c :: cs) with
    | some m => some m
    | none => regexSearch cs

/-- `extract_json` from `5.chat_demo.py`: an empty payload is falsy and
yields `None`; otherwise search for the brace span and attempt
`json.loads` on the matched group, swallowing any parse exception. -/
def extract_json (payload : List Char) : Option JsonValue :=
  match payload with
  | [] => none
  | _ =>
    match regexSearch payload with
    | none => none
    | some m => json_loads m

/-- `pre` is a contiguous leading block of `l`. -/
def listStarts : List Char → List Char → Bool
  | [], _ => true
  | _ :: _, [] => false
  | p :: ps, c :: cs => p = c && listStarts ps cs

/-- Python's substring operator `needle in hay`. -/
def strContains : List Char → List Char → Bool
  | [], needle => match needle with | [] => true | _ => false
  | c :: t, needle => listStarts needle (c :: t) || strContains t needle

/-- Python `str.upper()` restricted to ASCII letters. -/
def pyUpper (l : List Char) : List Char :=
  l.map Char.toUpper

/-- `require_terminate` from `5.chat_demo.py`: the payload is a string
(always true in this embedding) and `"TERMINATE" in payload.upper()`. -/
def require_terminate (payload : List Char) : Bool :=
  strContains (pyUpper payload) ("TERMINATE".toList)

/-- `_strip_fences` from `7.stock_analysis.py`: strip surrounding
whitespace; when the text then starts with three backquotes
(`stripAfter` inspects the first three characters), delete the opening
fence together with its alphanumeric language tag and following
whitespace (`re.sub` of the anchored pattern), then remove trailing
backquotes (`rstrip`) and strip again (`stripFenceBody`). -/
def stripFenceBody (r : List Char) : List Char :=
  let s2 := (r.dropWhile isAlnumAscii).dropWhile isPyWs
  pyStrip ((s2.reverse.dropWhile (fun x => x = backquote)).reverse)

def stripAfter : List Char → List Char
  | a :: b :: c :: r =>
    if a = backquote ∧ b = backquote ∧ c = backquote then stripFenceBody r
    else a :: b :: c :: r
  | s1 => s1

def strip_fences (s : List Char) : List Char :=
  stripAfter (pyStrip s)

/-- The parse attempts of `run_workflow` on the already fence-stripped
text: when non-empty (truthy), try `json.loads` on the whole text,
falling back to the `\x7b.*\x7d` span search and a second `json.loads`;
every failure path leaves `data_json = None`. -/
def parseStripped : List Char → Option JsonValue
  | [] => none
  | t =>
    match json_loads t with
    | some v => some v
    | none =>
      match regexSearch t with
      | some m => json_loads m
      | none => none

/-- The JSON-recovery step of `run_workflow` in `7.stock_analysis.py`
(lines 180–193): strip fences from the analyst's reply, then run the
parse attempts of `parseStripped` on the result. -/
def parse_model_json (text1 : List Char) : Option JsonValue :=
  parseStripped (strip_fences text1)

/-- Truthiness, in Python's sense, of `data.get(key)` applied to a value
decoded from JSON: absent keys give `None` (falsy); empty strings,
empty containers and zero are falsy. -/
def jsonTruthy : Option JsonValue → Bool
  | none => false
  | some JsonValue.null => false
  | some (JsonValue.bool b) => b
  | some (JsonValue.num m _) => !(m == 0)
  | some (JsonValue.str s) => !s.isEmpty
  | some (JsonValue.arr xs) => !xs.isEmpty
  | some (JsonValue.obj kvs) => !kvs.isEmpty
  | some JsonValue.nan => true
  | some (JsonValue.inf _) => true

/-- Python `dict.get`: with duplicate keys in the decoded member list the
last occurrence wins, as in the dict built by `json.loads`. -/
def dictGet (kvs : List (List Char × JsonValue)) (k : List Char) : Option JsonValue :=
  match kvs.reverse.find? (fun p => p.1 == k) with
  | some p => some p.2
  | none => none

/-- One body of `phase_personal_info` after a reply has been fixed
(lines 112–118 of `5.chat_demo.py`): `data = extract_json(reply) or {}`;
the attempt succeeds when `data.get("name")` and `data.get("location")`
are both truthy, capturing the two values. -/
def phaseStep (reply : List Char) : Option (JsonValue × JsonValue) :=
  let data := (extract_json reply).getD (JsonValue.obj [])
  match data with
  | JsonValue.obj kvs =>
    match dictGet kvs ("name".toList), dictGet kvs ("location".toList) with
    | some n, some l =>
      if jsonTruthy (some n) && jsonTruthy (some l) then some (n, l) else none
    | _, _ => none
  | _ => none

/-- Add the attempt being completed to the count of a restarted phase. -/
def phaseAfter : Option (Nat × (JsonValue × JsonValue)) → Option (Nat × (JsonValue × JsonValue))
  | some p => some (p.1 + 1, p.2)
  | none => none

/-- `phase_personal_info` of `5.chat_demo.py` as a function of the
sequence of model replies, one consumed per `agent.run` call: use the
first reply; when it lacks the TERMINATE marker, re-run once and use the
second reply unconditionally; when name/location cannot be captured the
whole phase restarts (`return await phase_personal_info()`).  The result
counts the number of pipeline attempts together with the captured
record; an exhausted reply list gives `none`. -/
def phasePersonalInfo : List (List Char) → Option (Nat × (JsonValue × JsonValue))
  | [] => none
  | [r1] =>
    if require_terminate r1 then
      match phaseStep r1 with
      | some nl => some (1, nl)
      | none => none
    else none
  | r1 :: r2 :: rest2 =>
    if require_terminate r1 then
      match phaseStep r1 with
      | some nl => some (1, nl)
      | none => phaseAfter (phasePersonalInfo (r2 :: rest2))
    else
      match phaseStep r2 with
      | some nl => some (1, nl)
      | none => phaseAfter (phasePersonalInfo rest2)

example : extract_json ("noise \x7b\"name\":\"Ann\",\"location\":\"Goa\"\x7d TERMINATE".toList) =
    some (JsonValue.obj
      [("name".toList, JsonValue.str ("Ann".toList)),
       ("location".toList, JsonValue.str ("Goa".toList))]) := by rfl

example : extract_json ("no braces here".toList) = none := by rfl

example : extract_json ("\x7boops\x7d".toList) = none := by rfl

example : require_terminate ("please terminate now".toList) = true := by rfl

example : require_terminate ("all done".toList) = false := by rfl

example : strip_fences ("```json\n\x7b\"a\":1\x7d\n```".toList) = "\x7b\"a\":1\x7d".toList := by rfl

example : parse_model_json ("```json\n\x7b\"a\":1\x7d\n```".toList) =
    some (JsonValue.obj [("a".toList, JsonValue.num 1 0)]) := by rfl

example :
    phasePersonalInfo
      ["TERMINATE".toList, "\x7b\"name\":\"Ann\",\"location\":\"Goa\"\x7d TERMINATE".toList] =
    some (2, JsonValue.str ("Ann".toList), JsonValue.str ("Goa".toList)) := by rfl

/-- Modelled from the spec: the value-kind constraints of a FieldSchema
entry that the claims exercise — plain string, enumerated string
literals, or a float confined to a closed range.  The validation logic
itself is not part of this repository (it is performed by `pydantic`
against the declarations `AgentResponse` in `2.structured_output.py` and
`ResearchReport` in `6.research_agent.py`), so it is reconstructed from
section 4.2 of the specification; the list and nested-schema constraint
kinds, which no claim touches, are omitted. -/
inductive FieldConstraint where
  | fstring
  | fenum (lits : List (List Char))
  | frange (lo hi : ℚ)

/-- Modelled from the spec: one declared field of a FieldSchema — name,
required flag, value-kind constraint, and default for optional fields. -/
structure SchemaField where
  fname : List Char
  required : Bool
  constraint : FieldConstraint
  dflt : Option JsonValue

/-- Modelled from the spec: a validation error naming the offending
field and the violated constraint. -/
structure FieldError where
  field : List Char
  reason : List Char

/-- Modelled from the spec: the tagged result of validation — a
validated record or the list of all accumulated FieldErrors. -/
inductive ValidationOutcome where
  | success (record : List (List Char × JsonValue))
  | failure (errors : List FieldError)

/-- Exact rational denoted by the scientific pair (mantissa, exp10). -/
def sciToRat (m e : Int) : ℚ :=
  (m : ℚ) * (if 0 ≤ e then (10 : ℚ) ^ e.toNat else ((10 : ℚ) ^ (-e).toNat)⁻¹)

/-- Modelled from the spec: conversion of a payload value to a
floating-point number — JSON numbers convert, everything else does not. -/
def toFloat? : JsonValue → Option ℚ
  | JsonValue.num m e => some (sciToRat m e)
  | _ => none

/-- Modelled from the spec: check one present value against its field's
value-kind constraint, yielding the (possibly empty) list of errors. -/
def checkConstraint (name : List Char) (v : JsonValue) : FieldConstraint → List FieldError
  | FieldConstraint.fstring =>
    match v with
    | JsonValue.str _ => []
    | _ => [⟨name, "not a string".toList⟩]
  | FieldConstraint.fenum lits =>
    match v with
    | JsonValue.str s => if s ∈ lits then [] else [⟨name, "not in enum".toList⟩]
    | _ => [⟨name, "not in enum".toList⟩]
  | FieldConstraint.frange lo hi =>
    match toFloat? v with
    | none => [⟨name, "not numeric".toList⟩]
    | some q => if lo ≤ q ∧ q ≤ hi then [] else [⟨name, "out of range".toList⟩]

/-- Modelled from the spec: errors contributed by a single declared
field — `missing` when a required field is absent, else the constraint
check; absent optional fields contribute nothing. -/
def fieldErrors (payload : List (List Char × JsonValue)) (f : SchemaField) : List FieldError :=
  match dictGet payload f.fname with
  | some v => checkConstraint f.fname v f.constraint
  | none => if f.required then [⟨f.fname, "missing".toList⟩] else []

/-- Modelled from the spec: the record entry contributed by a declared
field — the payload value when present, else the declared default. -/
def fieldRecord (payload : List (List Char × JsonValue)) (f : SchemaField) :
    List (List Char × JsonValue) :=
  match dictGet payload f.fname with
  | some v => [(f.fname, v)]
  | none =>
    match f.dflt with
    | some d => [(f.fname, d)]
    | none => []

/-- Modelled from the spec: the tagged outcome from the accumulated
errors — success with the record exactly when no error was recorded. -/
def outcomeOf (errs : List FieldError) (record : List (List Char × JsonValue)) :
    ValidationOutcome :=
  match errs with
  | [] => ValidationOutcome.success record
  | e :: es => ValidationOutcome.failure (e :: es)

/-- Modelled from the spec: validate a parsed payload against a schema
in one pass, accumulating an error for every violated constraint;
success is returned exactly when no field contributes an error, and the
failure carries all accumulated errors. -/
def validate (payload : List (List Char × JsonValue)) (schema : List SchemaField) :
    ValidationOutcome :=
  outcomeOf (schema.flatMap (fieldErrors payload)) (schema.flatMap (fieldRecord payload))

/-- The confidence field of `ResearchReport` in `6.research_agent.py`:
`confidence: float = Field(ge=0.0, le=1.0, ...)`. -/
def confidenceField : SchemaField :=
  ⟨"confidence".toList, true, FieldConstraint.frange 0 1, none⟩

/-- The response field of `AgentResponse` in `2.structured_output.py`:
`response: Literal["happy", "sad", "neutral"]`. -/
def responseField : SchemaField :=
  ⟨"response".toList, true, FieldConstraint.fenum
    ["happy".toList, "sad".toList, "neutral".toList], none⟩

/-- A schema with two required string fields and one required range
field, the shape used by the multiple-errors scenario of the spec. -/
def personReportSchema : List SchemaField :=
  [⟨"name".toList, true, FieldConstraint.fstring, none⟩,
   ⟨"location".toList, true, FieldConstraint.fstring, none⟩,
   confidenceField]

example :
    validate [("response".toList, JsonValue.str ("happy".toList))] [responseField] =
    ValidationOutcome.success [("response".toList, JsonValue.str ("happy".toList))] := by rfl

example :
    validate [("response".toList, JsonValue.str ("angry".toList))] [responseField] =
    ValidationOutcome.failure [⟨"response".toList, "not in enum".toList⟩] := by rfl

/-! ### Lemmas about the brace-span regex -/

theorem upToLastClose_none {y : List Char} (h : ∀ c ∈ y, c ≠ '}') :
    upToLastClose y = none := by
  induction y with
  | nil => rfl
  | cons c cs ih =>
    have hc : c ≠ '}' := h c (List.mem_cons_self c cs)
    have ih' := ih (fun d hd => h d (List.mem_cons_of_mem c hd))
    simp [upToLastClose, ih', hc]

theorem upToLastClose_append {x y : List Char} (h : ∀ c ∈ y, c ≠ '}') :
    upToLastClose (x ++ y) = upToLastClose x := by
  induction x with
  | nil => simpa using upToLastClose_none h
  | cons c cs ih => simp [upToLastClose, ih]

theorem upToLastClose_last (x : List Char) :
    upToLastClose (x ++ ['}']) = some (x ++ ['}']) := by
  induction x with
  | nil => rfl
  | cons c cs ih => simp [upToLastClose, ih]

theorem regexSearch_cons_no {c : Char} (hc : c ≠ '{') (cs : List Char) :
    regexSearch (c :: cs) = regexSearch cs := by
  simp [regexSearch, matchBrace, hc]

theorem regexSearch_append {a z : List Char} (h : ∀ c ∈ a, c ≠ '{') :
    regexSearch (a ++ z) = regexSearch z := by
  induction a with
  | nil => rfl
  | cons c cs ih =>
    rw [List.cons_append, regexSearch_cons_no (h c (List.mem_cons_self c cs))]
    exact ih (fun d hd => h d (List.mem_cons_of_mem c hd))

theorem regexSearch_none {a : List Char} (h : ∀ c ∈ a, c ≠ '{') :
    regexSearch a = none := by
  have h2 := regexSearch_append (z := []) h
  simpa using h2

theorem regexSearch_brace {mid b : List Char} (hb : ∀ c ∈ b, c ≠ '}') :
    regexSearch ('{' :: (mid ++ ('}' :: b))) = some ('{' :: (mid ++ ['}'])) := by
  have h1 : upToLastClose (mid ++ ('}' :: b)) = some (mid ++ ['}']) := by
    have he : mid ++ ('}' :: b) = (mid ++ ['}']) ++ b := by simp
    rw [he, upToLastClose_append hb, upToLastClose_last]
  simp [regexSearch, matchBrace, h1]

theorem regexSearch_span {a mid b : List Char}
    (ha : ∀ c ∈ a, c ≠ '{') (hb : ∀ c ∈ b, c ≠ '}') :
    regexSearch (a ++ ('{' :: (mid ++ ('}' :: b)))) = some ('{' :: (mid ++ ['}'])) := by
  rw [regexSearch_append ha, regexSearch_brace hb]

theorem extract_json_cons (c : Char) (cs : List Char) :
    extract_json (c :: cs) =
      (match regexSearch (c :: cs) with
       | none => none
       | some m => json_loads m) := rfl

theorem extract_json_span {a mid b : List Char}
    (ha : ∀ c ∈ a, c ≠ '{') (hb : ∀ c ∈ b, c ≠ '}') :
    extract_json (a ++ ('{' :: (mid ++ ('}' :: b)))) = json_loads ('{' :: (mid ++ ['}'])) := by
  cases a with
  | nil => rw [List.nil_append, extract_json_cons, regexSearch_brace hb]
  | cons x xs =>
    rw [List.cons_append, extract_json_cons,
      show x :: (xs ++ ('{' :: (mid ++ ('}' :: b)))) = (x :: xs) ++ ('{' :: (mid ++ ('}' :: b)))
        from rfl,
      regexSearch_span ha hb]

theorem matchBrace_head {l t : List Char} (h : matchBrace l = some t) :
    ∃ r, t = '{' :: r := by
  cases l with
  | nil => simp [matchBrace] at h
  | cons c cs =>
    rw [matchBrace] at h
    by_cases hc : c = '{'
    · subst hc
      simp only [if_pos rfl] at h
      cases hu : upToLastClose cs with
      | none => rw [hu] at h; simp at h
      | some u => rw [hu] at h; simp at h; exact ⟨u, h.symm⟩
    · simp [hc] at h

theorem regexSearch_head {s m : List Char} (h : regexSearch s = some m) :
    ∃ r, m = '{' :: r := by
  induction s with
  | nil => simp [regexSearch] at h
  | cons c cs ih =>
    rw [regexSearch] at h
    cases hm : matchBrace (c :: cs) with
    | some t =>
      rw [hm] at h
      simp at h
      subst h
      exact matchBrace_head hm
    | none =>
      rw [hm] at h
      exact ih h

theorem parseValue_lbrace {fuel : Nat} {r rest : List Char} {v : JsonValue}
    (h : parseValue fuel ('{' :: r) = some (v, rest)) : ∃ kvs, v = JsonValue.obj kvs := by
  cases fuel with
  | zero => exact Option.noConfusion h
  | succ n =>
    have h' : (match parseObjBody n (skipWs r) with
        | some (kvs, rest') => some (JsonValue.obj kvs, rest')
        | none => none) = some (v, rest) := h
    cases ho : parseObjBody n (skipWs r) with
    | none => rw [ho] at h'; exact Option.noConfusion h'
    | some p =>
      obtain ⟨kvs, rest'⟩ := p
      rw [ho] at h'
      simp at h'
      exact ⟨kvs, h'.1.symm⟩

theorem skipWs_lbrace (r : List Char) : skipWs ('{' :: r) = '{' :: r := by
  have hf : isJsonWs '{' = false := rfl
  simp [skipWs, List.dropWhile_cons, hf]

theorem json_loads_lbrace {r : List Char} {v : JsonValue}
    (h : json_loads ('{' :: r) = some v) : ∃ kvs, v = JsonValue.obj kvs := by
  unfold json_loads at h
  rw [skipWs_lbrace] at h
  cases hp : parseValue (4 * ('{' :: r).length + 16) ('{' :: r) with
  | none => rw [hp] at h; simp at h
  | some pr =>
    obtain ⟨v', rest⟩ := pr
    rw [hp] at h
    by_cases he : skipWs rest = []
    · simp only [he, if_pos rfl] at h
      obtain ⟨kvs, hk⟩ := parseValue_lbrace hp
      obtain rfl : v' = v := by simpa using h
      exact ⟨kvs, hk⟩
    · simp [he] at h

/-- C1: on any raw input decomposed as prose `a` (holding no brace-open
character), then `\x7b`, a middle `mid`, a final `\x7d`, and prose `b`
(holding no brace-close character) — so the exhibited braces are the
first brace-open and the last brace-close of the whole text —
`JSON_PATTERN.search` selects exactly the span from that first brace to
that last brace (greedily across newlines, since the pattern is compiled
with `re.S`), and `extract_json` attempts `json.loads` on exactly that
span.  A nested object inside a single span parses correctly, while two
independent objects in one text are merged into a single span that fails
to parse. -/
theorem extract_selects_span :
    (∀ a mid b : List Char, (∀ c ∈ a, c ≠ '{') → (∀ c ∈ b, c ≠ '}') →
      regexSearch (a ++ ('{' :: (mid ++ ('}' :: b)))) = some ('{' :: (mid ++ ['}'])) ∧
      extract_json (a ++ ('{' :: (mid ++ ('}' :: b)))) = json_loads ('{' :: (mid ++ ['}']))) ∧
    extract_json ("pre \x7b\"a\": \x7b\"b\": 1\x7d\x7d post".toList) =
      some (JsonValue.obj [("a".toList,
        JsonValue.obj [("b".toList, JsonValue.num 1 0)])]) ∧
    extract_json ("\x7b\"a\": 1\x7d and \x7b\"b\": 2\x7d".toList) = none :=
  ⟨fun _ _ _ ha hb => ⟨regexSearch_span ha hb, extract_json_span ha hb⟩, by rfl, by rfl⟩

theorem extract_selects_span_witness :
    regexSearch (("see ".toList) ++ ('{' :: (("\"k\": 3".toList) ++ ('}' :: (" end".toList))))) =
      some ('{' :: (("\"k\": 3".toList) ++ ['}'])) ∧
    extract_json (("see ".toList) ++ ('{' :: (("\"k\": 3".toList) ++ ('}' :: (" end".toList))))) =
      json_loads ('{' :: (("\"k\": 3".toList) ++ ['}'])) :=
  extract_selects_span.1 ("see ".toList) ("\"k\": 3".toList) (" end".toList)
    (by decide) (by decide)

/-- C2 counterexample: the code collapses both failure modes to the same
value.  `"hello"` has no brace span at all and `"\x7boops\x7d"` has a span
that fails to parse, yet `extract_json` returns the identical result
`None` for both — the caller cannot distinguish a NoJsonFound situation
from a MalformedJson one, contradicting the claimed tagged result. -/
theorem extract_failures_indistinguishable :
    regexSearch ("hello".toList) = none ∧
    regexSearch ("\x7boops\x7d".toList) = some ("\x7boops\x7d".toList) ∧
    json_loads ("\x7boops\x7d".toList) = none ∧
    extract_json ("hello".toList) = extract_json ("\x7boops\x7d".toList) ∧
    extract_json ("hello".toList) = none :=
  ⟨by rfl, by rfl, by rfl, by rfl, by rfl⟩

/-- C2 amended: `extract_json` returns `None` in both failure modes —
when no brace span exists and when the selected span fails to parse —
so the two failure outcomes carry no distinguishing tag. -/
theorem extract_failure_modes_none :
    (∀ s : List Char, regexSearch s = none → extract_json s = none) ∧
    (∀ s m : List Char, regexSearch s = some m → json_loads m = none →
      extract_json s = none) := by
  constructor
  · intro s hr
    cases s with
    | nil => rfl
    | cons c cs => rw [extract_json_cons, hr]
  · intro s m hr hl
    cases s with
    | nil => rfl
    | cons c cs =>
      rw [extract_json_cons, hr]
      exact hl

theorem extract_failure_modes_none_witness :
    extract_json ("no json at all".toList) = none ∧
    extract_json ("\x7bbad\x7d".toList) = none :=
  ⟨extract_failure_modes_none.1 _ (by rfl),
   extract_failure_modes_none.2 _ ("\x7bbad\x7d".toList) (by rfl) (by rfl)⟩

/-- C3 counterexample: prose may not contain braces.  The input
`note\x7b \x7b"a": 1\x7d` embeds the valid JSON object `\x7b"a": 1\x7d`
preceded by prose that itself contains a brace-open character; the span
then starts inside the prose, fails to parse, and `extract_json` returns
`None` instead of the claimed `Success` with the embedded object. -/
theorem prose_brace_breaks_extraction :
    json_loads ("\x7b\"a\": 1\x7d".toList) =
      some (JsonValue.obj [("a".toList, JsonValue.num 1 0)]) ∧
    extract_json ("note\x7b \x7b\"a\": 1\x7d".toList) = none :=
  ⟨by rfl, by rfl⟩

/-- C3 amended: for raw strings of the form prose-before, embedded
object, prose-after, where the prose before the object contains no
brace-open character and the prose after it contains no brace-close
character, `extract_json` returns exactly the embedded object whenever
that object text parses as JSON. -/
theorem extract_embedded_object :
    ∀ (a mid b : List Char) (v : JsonValue), (∀ c ∈ a, c ≠ '{') → (∀ c ∈ b, c ≠ '}') →
      json_loads ('{' :: (mid ++ ['}'])) = some v →
      extract_json (a ++ ('{' :: (mid ++ ('}' :: b)))) = some v := by
  intro a mid b v ha hb hv
  rw [extract_json_span ha hb, hv]

theorem extract_embedded_object_witness :
    extract_json (("Here: ".toList) ++ ('{' :: (("\"x\": 2".toList) ++ ('}' :: (" bye".toList))))) =
      some (JsonValue.obj [("x".toList, JsonValue.num 2 0)]) :=
  extract_embedded_object ("Here: ".toList) ("\"x\": 2".toList) (" bye".toList)
    (JsonValue.obj [("x".toList, JsonValue.num 2 0)]) (by decide) (by decide) (by rfl)

/-- C9: `extract_json` is a total function whose result on every string
is either a parsed JSON object (the selected span starts with a brace,
so a successful parse is necessarily an object) or `None`; in
particular a span that fails to parse is swallowed by the catch-all
handler and reported as `None`, never propagated. -/
theorem extract_json_total :
    (∀ s : List Char,
        extract_json s = none ∨ ∃ kvs, extract_json s = some (JsonValue.obj kvs)) ∧
    (∀ s m : List Char, regexSearch s = some m → json_loads m = none →
      extract_json s = none) := by
  constructor
  · intro s
    cases s with
    | nil => exact Or.inl rfl
    | cons c cs =>
      rw [extract_json_cons]
      cases hr : regexSearch (c :: cs) with
      | none => exact Or.inl rfl
      | some m =>
        obtain ⟨r, rfl⟩ := regexSearch_head hr
        cases hl : json_loads ('{' :: r) with
        | none => exact Or.inl hl
        | some v =>
          obtain ⟨kvs, rfl⟩ := json_loads_lbrace hl
          exact Or.inr ⟨kvs, hl⟩
  · intro s m hr hl
    cases s with
    | nil => rfl
    | cons c cs =>
      rw [extract_json_cons, hr]
      exact hl

theorem extract_json_total_witness :
    extract_json ("\x7boops\x7d".toList) = none :=
  extract_json_total.2 ("\x7boops\x7d".toList) ("\x7boops\x7d".toList) (by rfl) (by rfl)

theorem listStarts_iff (p l : List Char) : listStarts p l = true ↔ ∃ t, l = p ++ t := by
  induction p generalizing l with
  | nil => simp [listStarts]
  | cons x ps ih =>
    cases l with
    | nil => simp [listStarts]
    | cons c cs =>
      simp only [listStarts, Bool.and_eq_true, decide_eq_true_eq, ih, List.cons_append]
      constructor
      · rintro ⟨rfl, t, rfl⟩
        exact ⟨t, rfl⟩
      · rintro ⟨t, ht⟩
        injection ht with h1 h2
        exact ⟨h1.symm, t, h2⟩

theorem strContains_iff (h n : List Char) :
    strContains h n = true ↔ ∃ a b, h = a ++ (n ++ b) := by
  induction h with
  | nil =>
    cases n with
    | nil => exact ⟨fun _ => ⟨[], [], rfl⟩, fun _ => rfl⟩
    | cons x xs =>
      simp [strContains]
  | cons c t ih =>
    rw [strContains]
    simp only [Bool.or_eq_true, listStarts_iff, ih]
    constructor
    · rintro (⟨b, hb⟩ | ⟨a, b, rfl⟩)
      · exact ⟨[], b, by simpa using hb⟩
      · exact ⟨c :: a, b, rfl⟩
    · rintro ⟨a, b, hab⟩
      cases a with
      | nil => exact Or.inl ⟨b, by simpa using hab⟩
      | cons x a' =>
        injection hab with h1 h2
        exact Or.inr ⟨a', b, h2⟩

/-- C10: `require_terminate` is exactly a case-insensitive substring
test — it returns true iff the uppercased payload contains the word
TERMINATE anywhere, including lowercase occurrences buried mid-text or
inside a longer word, and not only as a literal final line. -/
theorem require_terminate_is_substring_test :
    (∀ s : List Char, require_terminate s = true ↔
        ∃ a b, pyUpper s = a ++ ("TERMINATE".toList ++ b)) ∧
    require_terminate ("well xterminatey mid-line".toList) = true ∧
    require_terminate ("no marker".toList) = false := by
  refine ⟨fun s => ?_, by rfl, by rfl⟩
  show strContains (pyUpper s) ("TERMINATE".toList) = true ↔ _
  exact strContains_iff _ _

theorem require_terminate_is_substring_test_witness :
    require_terminate ("please Terminate now".toList) = true :=
  (require_terminate_is_substring_test.1 _).mpr
    ⟨"PLEASE ".toList, " NOW".toList, by rfl⟩

/-! ### The phase retry loop -/

/-- A model reply that carries the TERMINATE marker but no JSON, so the
attempt's extraction fails and the phase restarts. -/
def badReply : List Char := "TERMINATE".toList

/-- A model reply that satisfies the whole pipeline. -/
def goodReply : List Char :=
  "\x7b\"name\":\"Ann\",\"location\":\"Goa\"\x7d TERMINATE".toList

/-- The record captured from `goodReply`. -/
def goodRecord : JsonValue × JsonValue :=
  (JsonValue.str ("Ann".toList), JsonValue.str ("Goa".toList))

theorem phaseAfter_some {o : Option (Nat × (JsonValue × JsonValue))} {n : Nat}
    {x : JsonValue × JsonValue} (h : phaseAfter o = some (n, x)) :
    ∃ m, o = some (m, x) ∧ n = m + 1 := by
  cases o with
  | none => exact Option.noConfusion h
  | some p =>
    obtain ⟨m, y⟩ := p
    simp [phaseAfter] at h
    exact ⟨m, by simp [h.1.symm, h.2]⟩

theorem phasePersonalInfo_le :
    ∀ (k : Nat) (rs : List (List Char)), rs.length ≤ k →
      ∀ n x, phasePersonalInfo rs = some (n, x) → n ≤ rs.length := by
  intro k
  induction k with
  | zero =>
    intro rs hk n x h
    cases rs with
    | nil => exact Option.noConfusion h
    | cons a b => simp at hk
  | succ k ih =>
    intro rs hk n x h
    match rs with
    | [] => exact Option.noConfusion h
    | [r1] =>
      rw [phasePersonalInfo] at h
      by_cases ht : require_terminate r1 = true
      · rw [if_pos ht] at h
        cases hs : phaseStep r1 with
        | some nl => rw [hs] at h; simp at h; simp [h.1.symm]
        | none => rw [hs] at h; exact Option.noConfusion h
      · rw [if_neg ht] at h
        exact Option.noConfusion h
    | r1 :: r2 :: rest2 =>
      rw [phasePersonalInfo] at h
      by_cases ht : require_terminate r1 = true
      · rw [if_pos ht] at h
        cases hs : phaseStep r1 with
        | some nl => rw [hs] at h; simp at h; simp [h.1.symm]
        | none =>
          rw [hs] at h
          obtain ⟨m, hm, rfl⟩ := phaseAfter_some h
          have hlen : (r2 :: rest2).length ≤ k := by
            simp [List.length_cons] at hk ⊢
            omega
          have := ih (r2 :: rest2) hlen m x hm
          simp [List.length_cons] at this ⊢
          omega
      · rw [if_neg ht] at h
        cases hs : phaseStep r2 with
        | some nl => rw [hs] at h; simp at h; simp [h.1.symm]
        | none =>
          rw [hs] at h
          obtain ⟨m, hm, rfl⟩ := phaseAfter_some h
          have hlen : rest2.length ≤ k := by
            simp [List.length_cons] at hk
            omega
          have := ih rest2 hlen m x hm
          simp [List.length_cons]
          omega

theorem phase_attempts_le {rs : List (List Char)} {n : Nat} {x : JsonValue × JsonValue}
    (h : phasePersonalInfo rs = some (n, x)) : n ≤ rs.length :=
  phasePersonalInfo_le rs.length rs (Nat.le_refl _) n x h

theorem phase_family (n : Nat) :
    phasePersonalInfo (List.replicate n badReply ++ [goodReply]) =
      some (n + 1, goodRecord) := by
  induction n with
  | zero => rfl
  | succ k ih =>
    have ht : require_terminate badReply = true := by rfl
    have hs : phaseStep badReply = none := by rfl
    have hsplit : List.replicate (k + 1) badReply ++ [goodReply] =
        badReply :: (List.replicate k badReply ++ [goodReply]) := by
      simp [List.replicate_succ]
    rw [hsplit]
    cases hcons : List.replicate k badReply ++ [goodReply] with
    | nil => exact absurd hcons (by simp)
    | cons a b =>
      rw [phasePersonalInfo, if_pos ht, hs, ← hcons, ih]
      rfl

/-- C4 counterexample: no fixed constant bounds the number of pipeline
attempts of a phase.  For every candidate bound `c`, the reply sequence
of `c + 1` copies of a reply carrying TERMINATE but no parsable JSON,
followed by one good reply, drives the phase through `c + 2` attempts
(each failed extraction restarts the phase through the unbounded
recursion `return await phase_personal_info()`). -/
theorem phase_attempts_not_bounded :
    ¬ ∃ c : Nat, ∀ (rs : List (List Char)) (n : Nat) (x : JsonValue × JsonValue),
        phasePersonalInfo rs = some (n, x) → n ≤ c := by
  rintro ⟨c, h⟩
  have hf := phase_family c
  have hc := h _ _ _ hf
  omega

/-- C4 amended: within a single attempt the TERMINATE retry is indeed
bounded — a first reply lacking the marker causes exactly one re-run
whose reply is used unconditionally — but the total number of pipeline
attempts per phase is not bounded by any fixed constant: it is bounded
only by the length of the reply sequence, and for every candidate
constant some reply sequence exceeds it, because a failed
extraction/validation restarts the phase recursively. -/
theorem phase_retry_once_attempts_unbounded :
    (∀ (r1 r2 : List Char) (rest2 : List (List Char)) (nl : JsonValue × JsonValue),
        require_terminate r1 = false → phaseStep r2 = some nl →
        phasePersonalInfo (r1 :: r2 :: rest2) = some (1, nl)) ∧
    (∀ (rs : List (List Char)) (n : Nat) (x : JsonValue × JsonValue),
        phasePersonalInfo rs = some (n, x) → n ≤ rs.length) ∧
    (∀ c : Nat, ∃ rs n x, phasePersonalInfo rs = some (n, x) ∧ c < n) := by
  refine ⟨?_, ?_, ?_⟩
  · intro r1 r2 rest2 nl hf hs
    have hneg : ¬ (require_terminate r1 = true) := by simp [hf]
    rw [phasePersonalInfo, if_neg hneg, hs]
  · exact fun rs n x h => phase_attempts_le h
  · intro c
    exact ⟨List.replicate c badReply ++ [goodReply], c + 1, goodRecord,
      phase_family c, Nat.lt_succ_self c⟩

theorem phase_retry_once_attempts_unbounded_witness :
    phasePersonalInfo ["no marker yet".toList,
        "\x7b\"name\":\"Bo\",\"location\":\"Rio\"\x7d".toList] =
      some (1, (JsonValue.str ("Bo".toList), JsonValue.str ("Rio".toList))) ∧
    ∃ rs n x, phasePersonalInfo rs = some (n, x) ∧ 5 < n :=
  ⟨phase_retry_once_attempts_unbounded.1 ("no marker yet".toList)
      ("\x7b\"name\":\"Bo\",\"location\":\"Rio\"\x7d".toList) []
      (JsonValue.str ("Bo".toList), JsonValue.str ("Rio".toList)) (by rfl) (by rfl),
   phase_retry_once_attempts_unbounded.2.2 5⟩


/-! ### Fence stripping -/

/-- A JSON text wrapped in triple-backquote Markdown fences with an
optional language tag on the opening fence, the shape tolerated by
`_strip_fences`. -/
def fenceWrap (tag body : List Char) : List Char :=
  [backquote, backquote, backquote] ++
    (tag ++ ('\n' :: (body ++ ('\n' :: [backquote, backquote, backquote]))))

theorem fenceWrap_cons (tag body : List Char) :
    fenceWrap tag body = backquote :: backquote :: backquote ::
      (tag ++ ('\n' :: (body ++ ('\n' :: [backquote, backquote, backquote])))) := rfl

theorem fenceWrap_reverse (tag body : List Char) :
    (fenceWrap tag body).reverse =
      backquote :: backquote :: backquote :: '\n' ::
        (body.reverse ++ ('\n' :: (tag.reverse ++ [backquote, backquote, backquote]))) := by
  simp [fenceWrap]

theorem pyStrip_eq_self {c d : Char} {t u l : List Char} (h1 : l = c :: t)
    (h2 : l.reverse = d :: u) (hc : isPyWs c = false) (hd : isPyWs d = false) :
    pyStrip l = l := by
  unfold pyStrip
  rw [h1, List.dropWhile_cons_of_neg (by simp [hc]), ← h1, h2,
    List.dropWhile_cons_of_neg (by simp [hd]), ← h2, List.reverse_reverse]

theorem pyStrip_fenceWrap (tag body : List Char) :
    pyStrip (fenceWrap tag body) = fenceWrap tag body :=
  pyStrip_eq_self (fenceWrap_cons tag body) (fenceWrap_reverse tag body) (by rfl) (by rfl)

theorem strip_fences_fenceWrap {tag body bod : List Char}
    (htag : ∀ c ∈ tag, isAlnumAscii c = true)
    (hb : body.dropWhile isPyWs = '{' :: bod) :
    strip_fences (fenceWrap tag body) = pyStrip body := by
  unfold strip_fences
  rw [pyStrip_fenceWrap, fenceWrap_cons, stripAfter, if_pos ⟨rfl, rfl, rfl⟩]
  unfold stripFenceBody
  have h1 : (tag ++ ('\n' :: (body ++ ('\n' :: [backquote, backquote, backquote])))).dropWhile
      isAlnumAscii = '\n' :: (body ++ ('\n' :: [backquote, backquote, backquote])) := by
    rw [List.dropWhile_append_of_pos htag, List.dropWhile_cons_of_neg (by decide)]
  rw [h1, List.dropWhile_cons_of_pos (by decide)]
  have h2 : (body ++ ('\n' :: [backquote, backquote, backquote])).dropWhile isPyWs =
      ('{' :: bod) ++ ('\n' :: [backquote, backquote, backquote]) := by
    rw [List.dropWhile_append, hb]
    simp
  rw [h2]
  show pyStrip ((((('{' :: bod) ++ ('\n' :: [backquote, backquote, backquote])).reverse).dropWhile
      (fun x => x = backquote)).reverse) = pyStrip body
  rw [List.reverse_append]
  have h3 : (('\n' :: [backquote, backquote, backquote]) : List Char).reverse =
      backquote :: backquote :: backquote :: ['\n'] := rfl
  rw [h3]
  have h4 : ((backquote :: backquote :: backquote :: ['\n']) ++
      ('{' :: bod).reverse).dropWhile (fun x => x = backquote) =
      '\n' :: ('{' :: bod).reverse := by
    rw [List.cons_append, List.dropWhile_cons_of_pos (by simp),
      List.cons_append, List.dropWhile_cons_of_pos (by simp),
      List.cons_append, List.dropWhile_cons_of_pos (by simp),
      List.cons_append, List.dropWhile_cons_of_neg (by decide), List.nil_append]
  rw [h4, List.reverse_cons, List.reverse_reverse]
  unfold pyStrip
  have h5 : (('{' :: bod) ++ ['\n']).dropWhile isPyWs = ('{' :: bod) ++ ['\n'] := by
    rw [List.cons_append, List.dropWhile_cons_of_neg (by decide)]
  rw [h5, List.reverse_append, hb]
  have h6 : ((['\n'] : List Char).reverse ++ ('{' :: bod).reverse).dropWhile isPyWs =
      (('{' :: bod).reverse).dropWhile isPyWs := by
    rw [show ((['\n'] : List Char).reverse ++ ('{' :: bod).reverse) =
        '\n' :: ('{' :: bod).reverse from rfl,
      List.dropWhile_cons_of_pos (by decide)]
  rw [h6]

theorem pyStrip_head {body bod : List Char} (hb : body.dropWhile isPyWs = '{' :: bod) :
    ∃ z, pyStrip body = '{' :: z := by
  unfold pyStrip
  rw [hb, List.reverse_cons, List.dropWhile_append]
  by_cases he : (bod.reverse.dropWhile isPyWs).isEmpty
  · rw [if_pos he]
    exact ⟨[], by rw [List.dropWhile_cons_of_neg (by decide)]; rfl⟩
  · rw [if_neg he, List.reverse_append]
    exact ⟨(bod.reverse.dropWhile isPyWs).reverse, rfl⟩

theorem stripAfter_of_lbrace (z : List Char) : stripAfter ('{' :: z) = '{' :: z := by
  cases z with
  | nil => rfl
  | cons b z2 =>
    cases z2 with
    | nil => rfl
    | cons c z3 =>
      rw [stripAfter, if_neg]
      rintro ⟨h1, -, -⟩
      exact absurd h1 (by decide)

theorem strip_fences_noFence {body bod : List Char}
    (hb : body.dropWhile isPyWs = '{' :: bod) :
    strip_fences body = pyStrip body := by
  obtain ⟨z, hz⟩ := pyStrip_head hb
  unfold strip_fences
  rw [hz, stripAfter_of_lbrace, ← hz]

theorem regexSearch_append_right {x y : List Char}
    (hy : ∀ c ∈ y, c ≠ '{' ∧ c ≠ '}') :
    regexSearch (x ++ y) = regexSearch x := by
  induction x with
  | nil => simpa using regexSearch_none (fun c hc => (hy c hc).1)
  | cons c cs ih =>
    rw [List.cons_append]
    have hm : matchBrace (c :: (cs ++ y)) = matchBrace (c :: cs) := by
      rw [matchBrace, matchBrace, upToLastClose_append (fun d hd => (hy d hd).2)]
    rw [regexSearch, regexSearch, hm]
    cases hmb : matchBrace (c :: cs) with
    | some m => rfl
    | none => simpa using ih

theorem extract_json_eq_search (s : List Char) :
    extract_json s =
      (match regexSearch s with
       | none => none
       | some m => json_loads m) := by
  cases s with
  | nil => rfl
  | cons c cs => rfl

theorem isAlnumAscii_ne_braces {c : Char} (h : isAlnumAscii c = true) :
    c ≠ '{' ∧ c ≠ '}' := by
  constructor
  · rintro rfl; exact absurd h (by decide)
  · rintro rfl; exact absurd h (by decide)

theorem extract_json_fenceWrap {tag body : List Char}
    (htag : ∀ c ∈ tag, isAlnumAscii c = true) :
    extract_json (fenceWrap tag body) = extract_json body := by
  have hshape : fenceWrap tag body =
      (([backquote, backquote, backquote] ++ tag) ++ ['\n']) ++
        (body ++ ['\n', backquote, backquote, backquote]) := by
    simp [fenceWrap]
  have hpre : ∀ c ∈ (([backquote, backquote, backquote] ++ tag) ++ ['\n']), c ≠ '{' := by
    intro c hc
    rcases List.mem_append.mp hc with hc1 | hc2
    · rcases List.mem_append.mp hc1 with hc3 | hc4
      · have hcq : c = backquote := by simpa using hc3
        subst hcq
        decide
      · exact (isAlnumAscii_ne_braces (htag c hc4)).1
    · have hcn : c = '\n' := by simpa using hc2
      subst hcn
      decide
  have hsuf : ∀ c ∈ (['\n', backquote, backquote, backquote] : List Char),
      c ≠ '{' ∧ c ≠ '}' := by decide
  have hr : regexSearch (fenceWrap tag body) = regexSearch body := by
    rw [hshape, regexSearch_append hpre, regexSearch_append_right hsuf]
  rw [extract_json_eq_search, extract_json_eq_search, hr]

/-- C5: fence stripping is result-preserving.  Wrapping a text in
triple-backquote fences with an alphanumeric (possibly empty) language
tag on the opening fence changes neither the `extract_json` result nor
the `run_workflow` parse result, and on a body whose first
non-whitespace character is a brace-open — as for every valid JSON
object text — the stripping step removes the opening fence with its
language tag and the trailing fence, returning exactly the
whitespace-stripped body. -/
theorem fence_tolerance :
    ∀ tag body : List Char, (∀ c ∈ tag, isAlnumAscii c = true) →
      (extract_json (fenceWrap tag body) = extract_json body) ∧
      (∀ bod, body.dropWhile isPyWs = '{' :: bod →
        strip_fences (fenceWrap tag body) = pyStrip body ∧
        parse_model_json (fenceWrap tag body) = parse_model_json body) := by
  intro tag body htag
  refine ⟨extract_json_fenceWrap htag, fun bod hb => ⟨strip_fences_fenceWrap htag hb, ?_⟩⟩
  unfold parse_model_json
  rw [strip_fences_fenceWrap htag hb, strip_fences_noFence hb]

theorem fence_tolerance_witness :
    (extract_json (fenceWrap ("json".toList) ("\x7b\"a\": 1\x7d".toList)) =
      extract_json ("\x7b\"a\": 1\x7d".toList)) ∧
    strip_fences (fenceWrap ("json".toList) ("\x7b\"a\": 1\x7d".toList)) =
      pyStrip ("\x7b\"a\": 1\x7d".toList) ∧
    parse_model_json (fenceWrap ("json".toList) ("\x7b\"a\": 1\x7d".toList)) =
      parse_model_json ("\x7b\"a\": 1\x7d".toList) :=
  ⟨(fence_tolerance ("json".toList) ("\x7b\"a\": 1\x7d".toList) (by decide)).1,
   ((fence_tolerance ("json".toList) ("\x7b\"a\": 1\x7d".toList) (by decide)).2
      ("\"a\": 1\x7d".toList) (by rfl)).1,
   ((fence_tolerance ("json".toList) ("\x7b\"a\": 1\x7d".toList) (by decide)).2
      ("\"a\": 1\x7d".toList) (by rfl)).2⟩

/-! ### Validation -/

theorem dictGet_singleton (k : List Char) (v : JsonValue) : dictGet [(k, v)] k = some v := by
  simp [dictGet]

theorem validate_failure_flatMap {payload : List (List Char × JsonValue)}
    {fs : List SchemaField} {errs : List FieldError}
    (h : validate payload fs = ValidationOutcome.failure errs) :
    errs = fs.flatMap (fieldErrors payload) := by
  unfold validate at h
  cases he : fs.flatMap (fieldErrors payload) with
  | nil =>
    rw [he] at h
    exact ValidationOutcome.noConfusion h
  | cons e es =>
    rw [he] at h
    injection h with h1
    exact h1.symm

theorem validate_range_eq (v : JsonValue) (lo hi : ℚ) :
    validate [("confidence".toList, v)]
        [⟨"confidence".toList, true, FieldConstraint.frange lo hi, none⟩] =
      (match toFloat? v with
       | none => ValidationOutcome.failure [⟨"confidence".toList, "not numeric".toList⟩]
       | some q =>
         if lo ≤ q ∧ q ≤ hi then ValidationOutcome.success [("confidence".toList, v)]
         else ValidationOutcome.failure [⟨"confidence".toList, "out of range".toList⟩]) := by
  unfold validate
  simp only [List.flatMap_cons, List.flatMap_nil, List.append_nil, fieldErrors, fieldRecord,
    dictGet_singleton, checkConstraint]
  cases hf : toFloat? v with
  | none => rfl
  | some q =>
    show outcomeOf
        (if lo ≤ q ∧ q ≤ hi then [] else [⟨"confidence".toList, "out of range".toList⟩])
        [("confidence".toList, v)] =
      (if lo ≤ q ∧ q ≤ hi then ValidationOutcome.success [("confidence".toList, v)]
       else ValidationOutcome.failure [⟨"confidence".toList, "out of range".toList⟩])
    by_cases hq : lo ≤ q ∧ q ≤ hi
    · rw [if_pos hq, if_pos hq]
      rfl
    · rw [if_neg hq, if_neg hq]
      rfl

theorem validate_range_iff (v : JsonValue) (lo hi : ℚ) :
    (∃ r, validate [("confidence".toList, v)]
        [⟨"confidence".toList, true, FieldConstraint.frange lo hi, none⟩] =
      ValidationOutcome.success r) ↔
    ∃ q, toFloat? v = some q ∧ lo ≤ q ∧ q ≤ hi := by
  rw [validate_range_eq]
  cases hf : toFloat? v with
  | none =>
    constructor
    · rintro ⟨r, hr⟩
      exact ValidationOutcome.noConfusion hr
    · rintro ⟨q, hq2, -⟩
      exact Option.noConfusion hq2
  | some q =>
    show (∃ r, (if lo ≤ q ∧ q ≤ hi then
          ValidationOutcome.success [("confidence".toList, v)]
        else ValidationOutcome.failure [⟨"confidence".toList, "out of range".toList⟩]) =
        ValidationOutcome.success r) ↔ _
    by_cases hq : lo ≤ q ∧ q ≤ hi
    · rw [if_pos hq]
      constructor
      · intro _
        exact ⟨q, rfl, hq⟩
      · intro _
        exact ⟨[("confidence".toList, v)], rfl⟩
    · rw [if_neg hq]
      constructor
      · rintro ⟨r, hr⟩
        exact ValidationOutcome.noConfusion hr
      · rintro ⟨q2, hq2, h1, h2⟩
        obtain rfl : q = q2 := Option.some.inj hq2
        exact absurd ⟨h1, h2⟩ hq

/-- C6: for a required field constrained to the closed range [lo, hi],
validation succeeds iff the supplied value converts to a
floating-point number and lies within the range inclusive; against the
confidence field of `ResearchReport` (a float in [0, 1]) the payload
value 1.5 yields exactly FieldError confidence / out of range, while
every numeric confidence inside [0, 1] passes. -/
theorem confidence_range_validation :
    (∀ (v : JsonValue) (lo hi : ℚ),
      (∃ r, validate [("confidence".toList, v)]
          [⟨"confidence".toList, true, FieldConstraint.frange lo hi, none⟩] =
        ValidationOutcome.success r) ↔
      ∃ q, toFloat? v = some q ∧ lo ≤ q ∧ q ≤ hi) ∧
    validate [("confidence".toList, JsonValue.num 15 (-1))] [confidenceField] =
      ValidationOutcome.failure [⟨"confidence".toList, "out of range".toList⟩] ∧
    (∀ m e : Int, 0 ≤ sciToRat m e → sciToRat m e ≤ 1 →
      validate [("confidence".toList, JsonValue.num m e)] [confidenceField] =
        ValidationOutcome.success [("confidence".toList, JsonValue.num m e)]) := by
  refine ⟨validate_range_iff, ?_, ?_⟩
  · have hcf : [confidenceField] =
        [⟨"confidence".toList, true, FieldConstraint.frange 0 1, none⟩] := rfl
    rw [hcf, validate_range_eq]
    have hq : sciToRat 15 (-1) = 3 / 2 := by norm_num [sciToRat]
    show (if (0 : ℚ) ≤ sciToRat 15 (-1) ∧ sciToRat 15 (-1) ≤ 1 then
        ValidationOutcome.success [("confidence".toList, JsonValue.num 15 (-1))]
      else ValidationOutcome.failure [⟨"confidence".toList, "out of range".toList⟩]) =
      ValidationOutcome.failure [⟨"confidence".toList, "out of range".toList⟩]
    have hno : ¬((0 : ℚ) ≤ 3 / 2 ∧ (3 : ℚ) / 2 ≤ 1) := by norm_num
    rw [hq, if_neg hno]
  · intro m e h0 h1
    have hcf : [confidenceField] =
        [⟨"confidence".toList, true, FieldConstraint.frange 0 1, none⟩] := rfl
    rw [hcf, validate_range_eq]
    show (if (0 : ℚ) ≤ sciToRat m e ∧ sciToRat m e ≤ 1 then
        ValidationOutcome.success [("confidence".toList, JsonValue.num m e)]
      else ValidationOutcome.failure [⟨"confidence".toList, "out of range".toList⟩]) =
      ValidationOutcome.success [("confidence".toList, JsonValue.num m e)]
    rw [if_pos ⟨h0, h1⟩]

theorem confidence_range_validation_witness :
    validate [("confidence".toList, JsonValue.num 1 0)] [confidenceField] =
      ValidationOutcome.success [("confidence".toList, JsonValue.num 1 0)] :=
  confidence_range_validation.2.2 1 0 (by norm_num [sciToRat]) (by norm_num [sciToRat])

theorem validate_enum_eq (s : List Char) :
    validate [("response".toList, JsonValue.str s)] [responseField] =
      (if s ∈ ["happy".toList, "sad".toList, "neutral".toList] then
        ValidationOutcome.success [("response".toList, JsonValue.str s)]
      else ValidationOutcome.failure [⟨"response".toList, "not in enum".toList⟩]) := by
  unfold validate responseField
  simp only [List.flatMap_cons, List.flatMap_nil, List.append_nil, fieldErrors, fieldRecord,
    dictGet_singleton, checkConstraint]
  by_cases hs : s ∈ ["happy".toList, "sad".toList, "neutral".toList]
  · rw [if_pos hs, if_pos hs]
    rfl
  · rw [if_neg hs, if_neg hs]
    rfl

/-- C7: for a field constrained to an enumerated set of string
literals, validation succeeds iff the value equals one of the declared
literals under case-sensitive comparison; against the response field of
`AgentResponse` (happy / sad / neutral) the value angry fails with
FieldError response / not in enum, happy succeeds, and the
capitalised Happy fails, showing case sensitivity. -/
theorem response_enum_validation :
    (∀ s : List Char,
      (∃ r, validate [("response".toList, JsonValue.str s)] [responseField] =
        ValidationOutcome.success r) ↔
      (s = "happy".toList ∨ s = "sad".toList ∨ s = "neutral".toList)) ∧
    validate [("response".toList, JsonValue.str ("angry".toList))] [responseField] =
      ValidationOutcome.failure [⟨"response".toList, "not in enum".toList⟩] ∧
    validate [("response".toList, JsonValue.str ("happy".toList))] [responseField] =
      ValidationOutcome.success [("response".toList, JsonValue.str ("happy".toList))] ∧
    validate [("response".toList, JsonValue.str ("Happy".toList))] [responseField] =
      ValidationOutcome.failure [⟨"response".toList, "not in enum".toList⟩] := by
  refine ⟨?_, by rfl, by rfl, by rfl⟩
  intro s
  rw [validate_enum_eq]
  by_cases hs : s ∈ ["happy".toList, "sad".toList, "neutral".toList]
  · rw [if_pos hs]
    constructor
    · intro _
      simpa using hs
    · intro _
      exact ⟨[("response".toList, JsonValue.str s)], rfl⟩
  · rw [if_neg hs]
    constructor
    · rintro ⟨r, hr⟩
      exact ValidationOutcome.noConfusion hr
    · intro hdisj
      exact absurd (by simpa using hdisj) hs

theorem response_enum_validation_witness :
    ∃ r, validate [("response".toList, JsonValue.str ("sad".toList))] [responseField] =
      ValidationOutcome.success r :=
  (response_enum_validation.1 ("sad".toList)).mpr (Or.inr (Or.inl rfl))

/-- C8: validation does not short-circuit — a Failure carries the
concatenation of the per-field errors, so the error of every violated
field is present — and the concrete scenario with two missing required
fields and one range violation yields exactly the three FieldErrors. -/
theorem validation_accumulates_errors :
    (∀ (payload : List (List Char × JsonValue)) (fs : List SchemaField)
        (errs : List FieldError) (f : SchemaField) (e : FieldError),
      validate payload fs = ValidationOutcome.failure errs →
      f ∈ fs → e ∈ fieldErrors payload f → e ∈ errs) ∧
    validate [("confidence".toList, JsonValue.num 2 0)] personReportSchema =
      ValidationOutcome.failure
        [⟨"name".toList, "missing".toList⟩,
         ⟨"location".toList, "missing".toList⟩,
         ⟨"confidence".toList, "out of range".toList⟩] := by
  constructor
  · intro payload fs errs f e hv hf he
    rw [validate_failure_flatMap hv]
    exact List.mem_flatMap.mpr ⟨f, hf, he⟩
  · have h0 : sciToRat 2 0 = 2 := by norm_num [sciToRat]
    have hno : ¬((0 : ℚ) ≤ 2 ∧ (2 : ℚ) ≤ 1) := by norm_num
    have he1 : fieldErrors [("confidence".toList, JsonValue.num 2 0)]
        ⟨"name".toList, true, FieldConstraint.fstring, none⟩ =
        [⟨"name".toList, "missing".toList⟩] := rfl
    have he2 : fieldErrors [("confidence".toList, JsonValue.num 2 0)]
        ⟨"location".toList, true, FieldConstraint.fstring, none⟩ =
        [⟨"location".toList, "missing".toList⟩] := rfl
    have he3 : fieldErrors [("confidence".toList, JsonValue.num 2 0)] confidenceField =
        [⟨"confidence".toList, "out of range".toList⟩] := by
      show (if (0 : ℚ) ≤ sciToRat 2 0 ∧ sciToRat 2 0 ≤ 1 then ([] : List FieldError)
          else [⟨"confidence".toList, "out of range".toList⟩]) =
        [⟨"confidence".toList, "out of range".toList⟩]
      rw [h0, if_neg hno]
    have hflat : personReportSchema.flatMap
        (fieldErrors [("confidence".toList, JsonValue.num 2 0)]) =
        [⟨"name".toList, "missing".toList⟩, ⟨"location".toList, "missing".toList⟩,
         ⟨"confidence".toList, "out of range".toList⟩] := by
      unfold personReportSchema
      rw [List.flatMap_cons, List.flatMap_cons, List.flatMap_cons, List.flatMap_nil,
        he1, he2, he3]
      rfl
    unfold validate
    rw [hflat]
    rfl

theorem validation_accumulates_errors_witness :
    (⟨"location".toList, "missing".toList⟩ : FieldError) ∈
      ([⟨"name".toList, "missing".toList⟩, ⟨"location".toList, "missing".toList⟩,
        ⟨"confidence".toList, "out of range".toList⟩] : List FieldError) :=
  validation_accumulates_errors.1 [("confidence".toList, JsonValue.num 2 0)]
    personReportSchema _ ⟨"location".toList, true, FieldConstraint.fstring, none⟩
    ⟨"location".toList, "missing".toList⟩
    validation_accumulates_errors.2
    (List.mem_cons_of_mem _ (List.mem_cons_self _ _))
    (List.mem_singleton.mpr rfl)
